import Mathlib

/-!
Verification of the dependency-scanner core (src/checkDeps.ts and its
helpers) against its natural-language specification.

The embedding models, from the source:
  - the fragment of the node-semver library the scanner uses
    (valid / clean / gtr over plain release versions and the common
    range syntax: exact versions, caret, tilde, x-ranges, and the
    primitive comparators written as full versions);
  - the classifier checkVersion;
  - the three memoised resolvers (npm registry, deno.land, GitHub) and
    the URL-dispatch resolver, with the network abstracted as oracles
    and fetches counted explicitly;
  - the three scan pipelines (manifest record, import map, free text).

Machine strings are Lean String values; stateful caches are passed
explicitly; code that can throw returns Except.
-/

/-! ## Semantic versions (model of the node-semver fragment in use)

A version is a major.minor.patch triple of naturals.  The scanner never
feeds pre-release or build identifiers through the comparison paths that
the claims are about, so the model covers plain release versions; a
string outside this fragment does not parse.
-/

structure SemVer where
  major : Nat
  minor : Nat
  patch : Nat
deriving DecidableEq, Repr

/-- Strict order on versions, lexicographic on (major, minor, patch). -/
def SemVer.ltb (a b : SemVer) : Bool :=
  a.major < b.major ||
    (a.major == b.major &&
      (a.minor < b.minor || (a.minor == b.minor && a.patch < b.patch)))

/-- Non-strict order on versions. -/
def SemVer.leb (a b : SemVer) : Bool := a.ltb b || a == b

theorem SemVer.ltb_iff (a b : SemVer) :
    a.ltb b = true ↔
      a.major < b.major ∨
        (a.major = b.major ∧
          (a.minor < b.minor ∨ (a.minor = b.minor ∧ a.patch < b.patch))) := by
  simp [SemVer.ltb]

theorem SemVer.leb_iff (a b : SemVer) :
    a.leb b = true ↔
      a.major < b.major ∨
        (a.major = b.major ∧
          (a.minor < b.minor ∨ (a.minor = b.minor ∧ a.patch ≤ b.patch))) := by
  obtain ⟨a1, a2, a3⟩ := a
  obtain ⟨b1, b2, b3⟩ := b
  simp [SemVer.leb, SemVer.ltb_iff, SemVer.mk.injEq]
  constructor
  · rintro (h | h) <;> omega
  · intro h
    by_cases h1 : a1 = b1 <;> by_cases h2 : a2 = b2 <;> by_cases h3 : a3 = b3 <;>
      subst_vars <;> omega

/-! ## Ranges and comparators

node-semver parses a range into a disjunction of comparator sets, each
set a conjunction of primitive comparators.  The empty operator of the
library (an exact pin such as 1.2.3) is modelled as an eq comparator.
-/

namespace Cmp7

inductive Op
  | lt
  | le
  | gt
  | ge
  | eq
deriving DecidableEq, Repr

end Cmp7

structure Cmp7r where
  op : Cmp7.Op
  ver : SemVer
deriving DecidableEq, Repr

abbrev CompSet := List Cmp7r
abbrev VRange := List CompSet

/-- Does version w satisfy a single comparator? -/
def satComp (w : SemVer) (c : Cmp7r) : Bool :=
  match c.op with
  | .lt => w.ltb c.ver
  | .le => w.leb c.ver
  | .gt => c.ver.ltb w
  | .ge => c.ver.leb w
  | .eq => w == c.ver

/-- Does version w satisfy a comparator set (a conjunction)? -/
def satSet (w : SemVer) (s : CompSet) : Bool := s.all (satComp w)

/-- node-semver satisfies: w matches some comparator set of the range. -/
def satisfies (w : SemVer) (r : VRange) : Bool := r.any (satSet w)

/-- One step of the forEach in node-semver outside(): keep the comparator
with the greatest version as high and the one with the least as low. -/
def hiloStep (acc : Option (Cmp7r × Cmp7r)) (c : Cmp7r) : Option (Cmp7r × Cmp7r) :=
  match acc with
  | none => some (c, c)
  | some (h, l) =>
      if h.ver.ltb c.ver then some (c, l)
      else if c.ver.ltb l.ver then some (h, c)
      else some (h, l)

/-- The high and low comparators of a set, as computed by outside(). -/
def hiLo (s : CompSet) : Option (Cmp7r × Cmp7r) := s.foldl hiloStep none

/-- The per-comparator-set test of node-semver outside(version, range, hilo)
specialised to hilo greater-than: the set rules version out as
range-exceeding unless this returns true.  Transcribed from the library:
a high comparator whose operator is gt or ge means no version is above
the set; otherwise version must not fall at or below the low bound. -/
def gtrSetPass (v : SemVer) (s : CompSet) : Bool :=
  match hiLo s with
  | none => true
  | some (h, l) =>
      if h.op = .gt ∨ h.op = .ge then false
      else if (l.op = .eq ∨ l.op = .gt) ∧ v.leb l.ver then false
      else if l.op = .ge ∧ v.ltb l.ver then false
      else true

/-- node-semver gtr(version, range): version is greater than the range.
The library first rules out versions satisfying the range, then requires
every comparator set to pass the high/low test above. -/
def gtr (v : SemVer) (r : VRange) : Bool :=
  !satisfies v r && r.all (gtrSetPass v)

/-- Comparator-set shapes produced by the common range syntax: an exact
pin, a sole lower bound, a sole strict upper bound, or a half-open
interval with the lower bound strictly below the upper one. -/
inductive GoodSet : CompSet → Prop
  | eqv (a : SemVer) : GoodSet [⟨.eq, a⟩]
  | gev (a : SemVer) : GoodSet [⟨.ge, a⟩]
  | ltv (b : SemVer) : GoodSet [⟨.lt, b⟩]
  | gelt (a b : SemVer) : a.ltb b = true → GoodSet [⟨.ge, a⟩, ⟨.lt, b⟩]

theorem gtrSetPass_eqv (v a : SemVer) :
    gtrSetPass v [⟨.eq, a⟩] = !(v.leb a) := by
  cases h : v.leb a <;> simp [gtrSetPass, hiLo, hiloStep, h]

theorem gtrSetPass_gev (v a : SemVer) :
    gtrSetPass v [⟨.ge, a⟩] = false := by
  simp [gtrSetPass, hiLo, hiloStep]

theorem gtrSetPass_ltv (v b : SemVer) :
    gtrSetPass v [⟨.lt, b⟩] = true := by
  simp [gtrSetPass, hiLo, hiloStep]

theorem gtrSetPass_gelt (v a b : SemVer) (hab : a.ltb b = true) :
    gtrSetPass v [⟨.ge, a⟩, ⟨.lt, b⟩] = !(v.ltb a) := by
  have hstep : hiLo [⟨.ge, a⟩, ⟨.lt, b⟩] = some (⟨.lt, b⟩, ⟨.ge, a⟩) := by
    simp [hiLo, hiloStep, hab]
  cases h : v.ltb a <;> simp [gtrSetPass, hstep, h]
theorem satSet_eqv_iff (w a : SemVer) :
    satSet w [⟨.eq, a⟩] = true ↔ w = a := by
  simp [satSet, satComp]

theorem satSet_gev_iff (w a : SemVer) :
    satSet w [⟨.ge, a⟩] = true ↔ a.leb w = true := by
  simp [satSet, satComp]

theorem satSet_ltv_iff (w b : SemVer) :
    satSet w [⟨.lt, b⟩] = true ↔ w.ltb b = true := by
  simp [satSet, satComp]

theorem satSet_gelt_iff (w a b : SemVer) :
    satSet w [⟨.ge, a⟩, ⟨.lt, b⟩] = true ↔
      (a.leb w = true ∧ w.ltb b = true) := by
  simp [satSet, satComp]

theorem goodSet_pass_iff (v : SemVer) (s : CompSet) (hs : GoodSet s) :
    (gtrSetPass v s = true ∧ satSet v s = false) ↔
      ∀ w, satSet w s = true → w.ltb v = true := by
  cases hs with
  | eqv a =>
      simp only [gtrSetPass_eqv, Bool.not_eq_true', Bool.eq_false_iff, ne_eq,
        satSet_eqv_iff, forall_eq]
      obtain ⟨v1, v2, v3⟩ := v
      obtain ⟨a1, a2, a3⟩ := a
      simp only [SemVer.leb_iff, SemVer.ltb_iff, SemVer.mk.injEq]
      omega
  | gev a =>
      rw [gtrSetPass_gev]
      constructor
      · rintro ⟨h, -⟩
        exact Bool.noConfusion h
      · intro hall
        exfalso
        have := hall ⟨a.major + v.major + 1, 0, 0⟩
          (by rw [satSet_gev_iff]
              simp only [SemVer.leb_iff]
              omega)
        simp only [SemVer.ltb_iff] at this
        omega
  | ltv b =>
      simp only [gtrSetPass_ltv, true_and, Bool.eq_false_iff, ne_eq,
        satSet_ltv_iff]
      obtain ⟨v1, v2, v3⟩ := v
      obtain ⟨b1, b2, b3⟩ := b
      constructor
      · intro hsat ⟨w1, w2, w3⟩ hw
        simp only [SemVer.ltb_iff] at hsat hw ⊢
        omega
      · intro hall hvb
        have := hall ⟨v1, v2, v3⟩ hvb
        simp only [SemVer.ltb_iff] at this
        omega
  | gelt a b hab =>
      simp only [gtrSetPass_gelt v a b hab, Bool.not_eq_true', Bool.eq_false_iff,
        ne_eq, satSet_gelt_iff]
      constructor
      · rintro ⟨hpass, hsat⟩ ⟨w1, w2, w3⟩ hw
        obtain ⟨v1, v2, v3⟩ := v
        obtain ⟨a1, a2, a3⟩ := a
        obtain ⟨b1, b2, b3⟩ := b
        simp only [SemVer.leb_iff, SemVer.ltb_iff, lt_self_iff_false,
          le_refl, eq_self_iff_true, true_and, and_true, false_or,
          or_false, true_implies] at hab hpass hsat hw ⊢
        omega
      · intro hall
        obtain ⟨v1, v2, v3⟩ := v
        obtain ⟨a1, a2, a3⟩ := a
        obtain ⟨b1, b2, b3⟩ := b
        have hv := hall ⟨v1, v2, v3⟩
        have ha := hall ⟨a1, a2, a3⟩
        simp only [SemVer.leb_iff, SemVer.ltb_iff, lt_self_iff_false,
          le_refl, eq_self_iff_true, true_and, and_true, false_or,
          or_false, true_implies] at hab hv ha ⊢
        by_cases hc :
            (a1 < v1 ∨ a1 = v1 ∧ (a2 < v2 ∨ a2 = v2 ∧ a3 ≤ v3)) ∧
              (v1 < b1 ∨ v1 = b1 ∧ (v2 < b2 ∨ v2 = b2 ∧ v3 < b3))
        · exact absurd hc hv
        · have ha2 := ha hab
          omega

theorem gtr_iff_exceedsAll (v : SemVer) (r : VRange) (h : ∀ s ∈ r, GoodSet s) :
    gtr v r = true ↔ ∀ w, satisfies w r = true → w.ltb v = true := by
  unfold gtr
  simp only [Bool.and_eq_true, Bool.not_eq_true', List.all_eq_true]
  constructor
  · rintro ⟨hsat, hpass⟩ w hw
    simp only [satisfies, List.any_eq_true] at hw
    obtain ⟨s, hsr, hws⟩ := hw
    have hvs : satSet v s = false := by
      rw [Bool.eq_false_iff]
      intro hvs
      have hx : satisfies v r = true := by
        simp only [satisfies, List.any_eq_true]
        exact ⟨s, hsr, hvs⟩
      rw [hx] at hsat
      exact Bool.noConfusion hsat
    exact ((goodSet_pass_iff v s (h s hsr)).mp ⟨hpass s hsr, hvs⟩) w hws
  · intro hall
    have perSet : ∀ s ∈ r, gtrSetPass v s = true ∧ satSet v s = false := by
      intro s hsr
      exact (goodSet_pass_iff v s (h s hsr)).mpr
        (fun w hw => hall w (by simp only [satisfies, List.any_eq_true]
                                exact ⟨s, hsr, hw⟩))
    refine ⟨?_, fun s hsr => (perSet s hsr).1⟩
    rw [Bool.eq_false_iff]
    intro hsat
    simp only [satisfies, List.any_eq_true] at hsat
    obtain ⟨s, hsr, hvs⟩ := hsat
    rw [(perSet s hsr).2] at hvs
    exact Bool.noConfusion hvs

/-! ## String-level parsing (model of semver.valid / semver.clean and
the range grammar fragment)

Strings are processed as their character lists.  The modelled grammar
fragment is: plain partials (1.2.3, 1.2, 1, 1.x, *), caret and tilde
sugar, and the primitive comparators written with an explicit operator
from >=, <, = followed by a full version.  Range strings outside the
fragment (hyphen ranges, pre-release identifiers, the other operators)
are treated as unparseable.
-/

def isWsChar (c : Char) : Bool :=
  c = ' ' || c = '\t' || c = '\n' || c = '\r'

def trimChars (l : List Char) : List Char :=
  ((l.dropWhile isWsChar).reverse.dropWhile isWsChar).reverse

/-- Digit run to a number, most significant first. -/
def natOfDigits (l : List Char) : Nat :=
  l.foldl (fun acc c => acc * 10 + (c.toNat - 48)) 0

/-- A semver numeric identifier: digits only, no leading zero except 0. -/
def parseNatStrict (l : List Char) : Option Nat :=
  if l = [] then none
  else if !(l.all Char.isDigit) then none
  else if l.head? = some '0' && decide (1 < l.length) then none
  else some (natOfDigits l)

/-- JavaScript-style split on a separator character (keeps empty parts). -/
def splitOnChar (sep : Char) : List Char → List (List Char)
  | [] => [[]]
  | c :: rest =>
      let r := splitOnChar sep rest
      if c = sep then [] :: r
      else
        match r with
        | [] => [[c]]
        | h :: t => (c :: h) :: t

/-- Split a range string on the || separator of alternatives. -/
def splitBars : List Char → List (List Char)
  | [] => [[]]
  | '|' :: '|' :: rest => [] :: splitBars rest
  | c :: rest =>
      match splitBars rest with
      | [] => [[c]]
      | h :: t => (c :: h) :: t

/-- Whitespace-separated tokens of a comparator-set string. -/
def splitWsTokens (l : List Char) : List (List Char) :=
  (splitOnChar ' ' (l.map (fun c => if isWsChar c then ' ' else c))).filter
    (fun t => !t.isEmpty)

/-- major.minor.patch, all three numeric. -/
def parseVerCore (l : List Char) : Option SemVer :=
  match splitOnChar '.' l with
  | [ma, mi, pa] =>
      match parseNatStrict ma, parseNatStrict mi, parseNatStrict pa with
      | some a, some b, some c => some ⟨a, b, c⟩
      | _, _, _ => none
  | _ => none

/-- Model of semver.valid: trim, allow one leading v, then a full
release version; yields the parsed version rather than the
re-rendered string. -/
def semverValid (s : String) : Option SemVer :=
  let t := trimChars s.data
  let t := match t with
           | 'v' :: rest => rest
           | other => other
  parseVerCore t

def renderSemVer (v : SemVer) : String :=
  toString v.major ++ "." ++ toString v.minor ++ "." ++ toString v.patch

/-- Model of semver.clean: trim, strip a leading run of = and v
characters, parse, and re-render normalised; none when unparseable. -/
def semverClean (s : String) : Option String :=
  (parseVerCore
      (trimChars ((trimChars s.data).dropWhile (fun c => c = '=' || c = 'v')))).map
    renderSemVer

/-- One dot-separated component of a range partial. -/
inductive VPart
  | num (n : Nat)
  | wild
deriving DecidableEq, Repr

def parseVPart (l : List Char) : Option VPart :=
  if l = ['x'] || l = ['X'] || l = ['*'] then some .wild
  else (parseNatStrict l).map .num

def parseParts (l : List Char) : Option (List VPart) :=
  (splitOnChar '.' l).mapM parseVPart

/-- Desugaring of a plain partial (x-range) into comparators, after
node-semver: a full version pins exactly, a shorter or wildcarded one
denotes the half-open interval it abbreviates, a leading wildcard
accepts everything. -/
def xrangeSet (parts : List VPart) : Option CompSet :=
  match parts with
  | [.num a, .num b, .num c] => some [⟨.eq, ⟨a, b, c⟩⟩]
  | [.num a, .num b] => some [⟨.ge, ⟨a, b, 0⟩⟩, ⟨.lt, ⟨a, b + 1, 0⟩⟩]
  | [.num a, .num b, .wild] => some [⟨.ge, ⟨a, b, 0⟩⟩, ⟨.lt, ⟨a, b + 1, 0⟩⟩]
  | [.num a] => some [⟨.ge, ⟨a, 0, 0⟩⟩, ⟨.lt, ⟨a + 1, 0, 0⟩⟩]
  | [.num a, .wild] => some [⟨.ge, ⟨a, 0, 0⟩⟩, ⟨.lt, ⟨a + 1, 0, 0⟩⟩]
  | [.num a, .wild, _] => some [⟨.ge, ⟨a, 0, 0⟩⟩, ⟨.lt, ⟨a + 1, 0, 0⟩⟩]
  | [.wild] => some [⟨.ge, ⟨0, 0, 0⟩⟩]
  | [.wild, _] => some [⟨.ge, ⟨0, 0, 0⟩⟩]
  | [.wild, _, _] => some [⟨.ge, ⟨0, 0, 0⟩⟩]
  | _ => none

/-- Caret sugar on a full version, after node-semver. -/
def caretSet (parts : List VPart) : Option CompSet :=
  match parts with
  | [.num a, .num b, .num c] =>
      if 0 < a then some [⟨.ge, ⟨a, b, c⟩⟩, ⟨.lt, ⟨a + 1, 0, 0⟩⟩]
      else if 0 < b then some [⟨.ge, ⟨0, b, c⟩⟩, ⟨.lt, ⟨0, b + 1, 0⟩⟩]
      else some [⟨.ge, ⟨0, 0, c⟩⟩, ⟨.lt, ⟨0, 0, c + 1⟩⟩]
  | _ => none

/-- Tilde sugar on a numeric partial, after node-semver. -/
def tildeSet (parts : List VPart) : Option CompSet :=
  match parts with
  | [.num a, .num b, .num c] => some [⟨.ge, ⟨a, b, c⟩⟩, ⟨.lt, ⟨a, b + 1, 0⟩⟩]
  | [.num a, .num b] => some [⟨.ge, ⟨a, b, 0⟩⟩, ⟨.lt, ⟨a, b + 1, 0⟩⟩]
  | [.num a] => some [⟨.ge, ⟨a, 0, 0⟩⟩, ⟨.lt, ⟨a + 1, 0, 0⟩⟩]
  | _ => none

/-- One comparator token of a range string. -/
def parseToken (l : List Char) : Option CompSet :=
  match l with
  | '^' :: rest => (parseParts rest).bind caretSet
  | '~' :: rest => (parseParts rest).bind tildeSet
  | '>' :: '=' :: rest => (parseVerCore rest).map (fun v => [⟨.ge, v⟩])
  | '>' :: _ => none
  | '<' :: '=' :: _ => none
  | '<' :: rest => (parseVerCore rest).map (fun v => [⟨.lt, v⟩])
  | '=' :: rest => (parseVerCore rest).map (fun v => [⟨.eq, v⟩])
  | _ => (parseParts l).bind xrangeSet

/-- A comparator set: whitespace-separated tokens, conjoined.  An empty
set string is the match-everything range. -/
def parseCompSet (l : List Char) : Option CompSet :=
  let toks := splitWsTokens (trimChars l)
  if toks = [] then some [⟨.ge, ⟨0, 0, 0⟩⟩]
  else (toks.mapM parseToken).map List.flatten

/-- Model of the node-semver Range constructor on the grammar fragment:
alternatives split on ||, each parsed as a comparator set; none models
the constructor throwing. -/
def parseRange (s : String) : Option VRange :=
  (splitBars s.data).mapM parseCompSet

/-! ## The classifier (checkVersion in src/checkDeps.ts) -/

inductive VersionCheckResult
  | latest
  | outdated
  | not_found
  | invalid_version
  | not_fixed
deriving DecidableEq, Repr

/-- checkVersion from src/checkDeps.ts.  The JavaScript tests
!curVer and !latestVer are truthiness tests, so the empty string takes
the same branch as null; the console logging of each branch is a side
effect with no bearing on the returned value and is omitted.  The gtr
call throws exactly when the current string does not parse as a range,
which the try/catch maps to invalid_version. -/
def checkVersion (pkgName : String) (curVer latestVer : Option String) :
    VersionCheckResult :=
  match curVer with
  | none => .invalid_version
  | some cur =>
      if cur = "" then .invalid_version
      else
        match latestVer with
        | none => .not_found
        | some latest =>
            if latest = "" then .not_found
            else
              match semverValid latest with
              | none => .invalid_version
              | some lv =>
                  match parseRange cur with
                  | none => .invalid_version
                  | some r =>
                      if gtr lv r then .outdated
                      else if (semverValid cur).isNone then .not_fixed
                      else .latest

theorem semverValid_empty : semverValid "" = none := rfl

/-- Helper: the classifier on two present, non-empty strings with a
valid latest and a parseable current range reduces to the gtr test. -/
theorem checkVersion_eval (name cur lat : String) (lv : SemVer) (r : VRange)
    (hc : cur ≠ "") (hl : lat ≠ "") (hv : semverValid lat = some lv)
    (hr : parseRange cur = some r) :
    checkVersion name (some cur) (some lat) =
      (if gtr lv r then .outdated
       else if (semverValid cur).isNone then .not_fixed
       else .latest) := by
  simp only [checkVersion, if_neg hc, if_neg hl, hv, hr]

/-- Helper: present non-empty strings with an invalid latest classify as
invalid_version. -/
theorem checkVersion_eval_novalid (name cur lat : String) (hc : cur ≠ "")
    (hl : lat ≠ "") (hv : semverValid lat = none) :
    checkVersion name (some cur) (some lat) = .invalid_version := by
  simp only [checkVersion, if_neg hc, if_neg hl, hv]

/-- Helper: present non-empty strings with a valid latest but an
unparseable current range classify as invalid_version. -/
theorem checkVersion_eval_norange (name cur lat : String) (lv : SemVer)
    (hc : cur ≠ "") (hl : lat ≠ "") (hv : semverValid lat = some lv)
    (hr : parseRange cur = none) :
    checkVersion name (some cur) (some lat) = .invalid_version := by
  simp only [checkVersion, if_neg hc, if_neg hl, hv, hr]

/-- C1 (counterexample): on the conjunction range =1.5.0 >=1.0.0 with
latest 1.2.0, the classifier reports outdated although the range accepts
1.5.0, which the valid latest 1.2.0 does not strictly exceed; so
"outdated exactly when latest strictly exceeds every version the range
would accept" fails as a biconditional on such ranges. -/
theorem checkVersion_outdated_gtr_cex :
    checkVersion "pkg" (some "=1.5.0 >=1.0.0") (some "1.2.0") =
        .outdated ∧
      parseRange "=1.5.0 >=1.0.0" =
        some [[⟨.eq, ⟨1, 5, 0⟩⟩, ⟨.ge, ⟨1, 0, 0⟩⟩]] ∧
      satisfies ⟨1, 5, 0⟩ [[⟨.eq, ⟨1, 5, 0⟩⟩, ⟨.ge, ⟨1, 0, 0⟩⟩]] = true ∧
      SemVer.ltb ⟨1, 5, 0⟩ ⟨1, 2, 0⟩ = false ∧
      semverValid "1.2.0" = some ⟨1, 2, 0⟩ := by
  refine ⟨?_, ?_, ?_, ?_, ?_⟩ <;> decide

/-- C1 (amended): for a non-empty current whose parsed range has only
standard comparator-set shapes, and a valid latest, the classifier
returns outdated exactly when latest strictly exceeds every version the
range accepts; and the spec examples hold: latest 1.5.0 never makes
caret-1.0.0 outdated while 2.0.0 does. -/
theorem checkVersion_outdated_iff_exceedsAll
    (name cur lat : String) (lv : SemVer) (r : VRange)
    (hc : cur ≠ "") (hv : semverValid lat = some lv)
    (hr : parseRange cur = some r) (hg : ∀ s ∈ r, GoodSet s) :
    (checkVersion name (some cur) (some lat) = .outdated ↔
        ∀ w, satisfies w r = true → w.ltb lv = true) ∧
      checkVersion "pkg" (some "^1.0.0") (some "1.5.0") ≠ .outdated ∧
      checkVersion "pkg" (some "^1.0.0") (some "2.0.0") = .outdated := by
  have hl : lat ≠ "" := by
    intro h
    rw [h, semverValid_empty] at hv
    exact Option.noConfusion hv
  refine ⟨?_, by decide, by decide⟩
  rw [checkVersion_eval name cur lat lv r hc hl hv hr]
  cases hγ : gtr lv r with
  | true =>
      rw [if_pos rfl]
      exact iff_of_true rfl ((gtr_iff_exceedsAll lv r hg).mp hγ)
  | false =>
      rw [if_neg (fun h => Bool.noConfusion h)]
      constructor
      · intro h
        split at h <;> exact absurd h (by decide)
      · intro hall
        have := (gtr_iff_exceedsAll lv r hg).mpr hall
        rw [hγ] at this
        exact Bool.noConfusion this

theorem checkVersion_outdated_iff_exceedsAll_witness :
    checkVersion "pkg" (some "^1.0.0") (some "2.0.0") =
      VersionCheckResult.outdated :=
  (checkVersion_outdated_iff_exceedsAll "pkg" "^1.0.0" "2.0.0" ⟨2, 0, 0⟩
    [[⟨.ge, ⟨1, 0, 0⟩⟩, ⟨.lt, ⟨2, 0, 0⟩⟩]]
    (by decide) (by decide) (by decide)
    (by intro s hs
        simp only [List.mem_singleton] at hs
        subst hs
        exact GoodSet.gelt _ _ (by decide))).2.2

/-- C2 (counterexample): an empty-string current version is present
(non-null) but is classified invalid_version, not not_found, when the
latest version is null, because the missing-current test is a JavaScript
truthiness test. -/
theorem checkVersion_empty_current_cex :
    checkVersion "pkg" (some "") none = .invalid_version ∧
      checkVersion "pkg" (some "") none ≠ .not_found := by
  exact ⟨by decide, by decide⟩

/-- C2 (amended): a null current version always classifies as
invalid_version, and a present, non-empty current version with a null
latest classifies as not_found; the empty string counts as missing. -/
theorem checkVersion_missing_fields :
    (∀ (name : String) (latO : Option String),
        checkVersion name none latO = .invalid_version) ∧
      ∀ (name cur : String), cur ≠ "" →
        checkVersion name (some cur) none = .not_found := by
  refine ⟨fun name latO => rfl, fun name cur hc => ?_⟩
  simp only [checkVersion, if_neg hc]

theorem checkVersion_missing_fields_witness :
    checkVersion "pkg" (some "1.2.3") none = VersionCheckResult.not_found :=
  checkVersion_missing_fields.2 "pkg" "1.2.3" (by decide)

/-- C3: with a present non-empty current, a valid latest and a range
comparison that does not report latest as range-exceeding, the
classifier returns not_fixed when the current string is not itself a
single exact valid version and latest otherwise; in particular an exact
pin equal to latest classifies as latest. -/
theorem checkVersion_not_outdated_pin
    (name cur lat : String) (lv : SemVer) (r : VRange)
    (hc : cur ≠ "") (hv : semverValid lat = some lv)
    (hr : parseRange cur = some r) (hg : gtr lv r = false) :
    checkVersion name (some cur) (some lat) =
        (if (semverValid cur).isNone then .not_fixed else .latest) ∧
      checkVersion "pkg" (some "1.2.3") (some "1.2.3") = .latest := by
  have hl : lat ≠ "" := by
    intro h
    rw [h, semverValid_empty] at hv
    exact Option.noConfusion hv
  refine ⟨?_, by decide⟩
  rw [checkVersion_eval name cur lat lv r hc hl hv hr]
  rw [if_neg (fun h => Bool.noConfusion (hg ▸ h))]

theorem checkVersion_not_outdated_pin_witness :
    checkVersion "pkg" (some "^1.0.0") (some "1.5.0") =
      VersionCheckResult.not_fixed :=
  ((checkVersion_not_outdated_pin "pkg" "^1.0.0" "1.5.0" ⟨1, 5, 0⟩
      [[⟨.ge, ⟨1, 0, 0⟩⟩, ⟨.lt, ⟨2, 0, 0⟩⟩]]
      (by decide) (by decide) (by decide) (by decide)).1).trans (by decide)

/-- C4 (counterexample): an empty-string latest is non-null and not a
valid semantic version, yet it classifies as not_found rather than
invalid_version, because the missing-latest test is a truthiness
test. -/
theorem checkVersion_empty_latest_cex :
    checkVersion "pkg" (some "1.0.0") (some "") = .not_found ∧
      semverValid "" = none ∧
      checkVersion "pkg" (some "1.0.0") (some "") ≠ .invalid_version := by
  refine ⟨?_, ?_, ?_⟩ <;> decide

/-- C4 (amended): a non-empty latest that is not a valid semantic
version yields invalid_version for every current; a current that does
not parse as a version or range yields invalid_version rather than a
crash when latest is valid; and the spec example holds. -/
theorem checkVersion_malformed_data :
    (∀ (name : String) (curO : Option String) (lat : String), lat ≠ "" →
        semverValid lat = none →
        checkVersion name curO (some lat) = .invalid_version) ∧
      (∀ (name cur lat : String) (lv : SemVer), cur ≠ "" →
        semverValid lat = some lv → parseRange cur = none →
        checkVersion name (some cur) (some lat) = .invalid_version) ∧
      checkVersion "pkg" (some "not-a-version") (some "1.0.0") =
        .invalid_version := by
  refine ⟨?_, ?_, by decide⟩
  · intro name curO lat hl hv
    cases curO with
    | none => rfl
    | some cur =>
        by_cases hc : cur = ""
        · subst hc
          rfl
        · exact checkVersion_eval_novalid name cur lat hc hl hv
  · intro name cur lat lv hc hv hr
    have hl : lat ≠ "" := by
      intro h
      rw [h, semverValid_empty] at hv
      exact Option.noConfusion hv
    exact checkVersion_eval_norange name cur lat lv hc hl hv hr

theorem checkVersion_malformed_data_witness :
    checkVersion "pkg" (some "1.0.0") (some "abc") =
      VersionCheckResult.invalid_version :=
  checkVersion_malformed_data.1 "pkg" (some "1.0.0") "abc" (by decide)
    (by decide)

/-! ## Resolvers (src/checkDeps.ts)

The per-ecosystem caches are JavaScript Maps from package key to
string-or-null; they are modelled as association lists where a set
prepends, so that a get sees the newest binding.  The network is an
oracle argument; each resolver output records the updated cache and the
number of fetches performed by the call.
-/

abbrev VersionCache := List (String × Option String)

def cacheGet (c : VersionCache) (k : String) : Option (Option String) :=
  (c.find? (fun p => p.1 == k)).map (fun p => p.2)

def cacheSet (c : VersionCache) (k : String) (v : Option String) :
    VersionCache :=
  (k, v) :: c

theorem cacheGet_set (c : VersionCache) (k : String) (w : Option String) :
    cacheGet (cacheSet c k w) k = some w := by
  simp [cacheGet, cacheSet, List.find?]

structure ResolveOut where
  current : Option String
  latest : Option String
  cache : VersionCache
  fetches : Nat
deriving DecidableEq, Repr

/-- createNpmResolver from src/checkDeps.ts.  The oracle net returns
none for a non-ok HTTP response and the dist-tags.latest field of the
parsed body for a successful one.  The cache-hit test of the source is
typeof-is-string test, so only a cached string value
short-circuits; a cached null falls through to a fetch. -/
def npmResolver (net : String → Option String) (cache : VersionCache)
    (pkgName : String) : ResolveOut :=
  match cacheGet cache pkgName with
  | some (some v) => ⟨none, some v, cache, 0⟩
  | _ =>
      match net pkgName with
      | none => ⟨none, none, cacheSet cache pkgName none, 1⟩
      | some version =>
          ⟨none, some version, cacheSet cache pkgName (some version), 1⟩

/-- Index of the last at-sign of a string, as lastIndexOf computes it. -/
def lastAtSign (l : List Char) : Option Nat :=
  ((l.enum.filter (fun p => p.2 = '@')).map (fun p => p.1)).getLast?

/-- decomposePackageNameVersion from src/checkDeps.ts: split on the
last at-sign when it sits at positive index, else no version suffix. -/
def decomposePackageNameVersion (s : String) : String × String :=
  match lastAtSign s.data with
  | none => (s, "")
  | some 0 => (s, "")
  | some i => (String.mk (s.data.take i), String.mk (s.data.drop (i + 1)))

def strStartsWithL : List Char → List Char → Bool
  | [], _ => true
  | _ :: _, [] => false
  | p :: ps, c :: cs => p == c && strStartsWithL ps cs

/-- JavaScript String.startsWith. -/
def strStartsWith (s pat : String) : Bool := strStartsWithL pat.data s.data

/-! ## URL parsing (model of the WHATWG URL fragment the dispatch uses)

Only the hostname and pathname are consumed downstream.  The model
covers absolute URLs of the special schemes (http, https, ws, wss, ftp)
with their slash forgiveness, userinfo and port stripping, and lowercase
hostnames; non-special schemes yield an empty hostname unless they carry
an authority.  Exotic inputs (percent-encoded hosts, IPv6) are outside
the fragment.
-/

structure URLParts where
  hostname : String
  pathname : String
deriving DecidableEq, Repr

def isSchemeChar (c : Char) : Bool :=
  c.isAlpha || c.isDigit || c = '+' || c = '-' || c = '.'

def lowerStr (l : List Char) : List Char := l.map Char.toLower

def specialSchemes : List (List Char) :=
  ["http".data, "https".data, "ws".data, "wss".data, "ftp".data]

def hostDelim (c : Char) : Bool :=
  c = '/' || c = '\\' || c = '?' || c = '#'

def isC0Space (c : Char) : Bool := c.toNat ≤ 32

def trimC0 (l : List Char) : List Char :=
  ((l.dropWhile isC0Space).reverse.dropWhile isC0Space).reverse

def pathnameOf (l : List Char) : List Char :=
  let p := (l.takeWhile (fun c => !(c == '?' || c == '#'))).map
    (fun c => if c = '\\' then '/' else c)
  if p = [] then ['/'] else p

/-- Host of an authority component: text after the last at-sign, with a
digits-only port stripped; a non-numeric port is a parse error. -/
def hostOfAuthority (auth : List Char) : Option (List Char) :=
  let hostPort :=
    match lastAtSign auth with
    | none => auth
    | some i => auth.drop (i + 1)
  let host := hostPort.takeWhile (fun c => !(c == ':'))
  match hostPort.drop host.length with
  | [] => some host
  | _ :: rest => if rest.all Char.isDigit then some host else none

/-- Model of new URL(s): none models the constructor throwing. -/
def parseURL (s : String) : Option URLParts :=
  let cs := trimC0 (s.data.filter
    (fun c => !(c == '\t' || c == '\n' || c == '\r')))
  match cs with
  | [] => none
  | c0 :: _ =>
      if !c0.isAlpha then none
      else
        let scheme := lowerStr (cs.takeWhile isSchemeChar)
        match cs.drop scheme.length with
        | ':' :: r1 =>
            if specialSchemes.contains scheme then
              let r2 := r1.dropWhile (fun c => c == '/' || c == '\\')
              let auth := r2.takeWhile (fun c => !(hostDelim c))
              let after := r2.drop auth.length
              match hostOfAuthority auth with
              | none => none
              | some host =>
                  if host = [] then none
                  else some ⟨String.mk (lowerStr host),
                    String.mk (pathnameOf after)⟩
            else
              match r1 with
              | '/' :: '/' :: r2 =>
                  let auth := r2.takeWhile (fun c => !(hostDelim c))
                  let after := r2.drop auth.length
                  match hostOfAuthority auth with
                  | none => none
                  | some host =>
                      some ⟨String.mk (lowerStr host),
                        String.mk (pathnameOf after)⟩
              | _ => some ⟨"", s⟩
        | _ => none

/-- url.pathname.split on slash, first (empty) segment dropped, as both
URL resolvers compute it. -/
def urlPathSegs (u : URLParts) : List String :=
  ((splitOnChar '/' u.pathname.data).map String.mk).drop 1

def ghOwner (u : URLParts) : String := ((urlPathSegs u).get? 0).getD "undefined"

def ghRepo (u : URLParts) : String := ((urlPathSegs u).get? 1).getD "undefined"

/-- Cache key owner/repo of the GitHub resolver; a missing path segment
becomes the text undefined exactly as JavaScript template interpolation
stringifies it. -/
def ghKey (u : URLParts) : String := ghOwner u ++ "/" ++ ghRepo u

/-- The declared ref segment (tag or branch) of a GitHub raw URL. -/
def ghRef (u : URLParts) : Option String := (urlPathSegs u).get? 2

inductive GhError
  | httpError
  | transportError
deriving DecidableEq, Repr

inductive JsError
  | ghRequestError (e : GhError)
  | typeError
deriving DecidableEq, Repr

/-- resolveGitHub from src/checkDeps.ts.  The octokit getLatestRelease
call rejects both on transport faults and on non-success HTTP statuses;
the oracle models it as Except, a successful response carrying the
optional tag_name field.  The resolver has no try/catch, so an error
propagates and nothing is cached; a success caches the cleaned tag,
which may be null. -/
def resolveGitHub (net : String → String → Except GhError (Option String))
    (cache : VersionCache) (url : URLParts) : Except JsError ResolveOut :=
  match cacheGet cache (ghKey url) with
  | some (some v) => .ok ⟨ghRef url, some v, cache, 0⟩
  | _ =>
      match net (ghOwner url) (ghRepo url) with
      | .error e => .error (.ghRequestError e)
      | .ok tagName =>
          let latestVersion := semverClean (tagName.getD "")
          .ok ⟨ghRef url, latestVersion,
            cacheSet cache (ghKey url) latestVersion, 1⟩

/-- resolveDenoLand from src/checkDeps.ts.  When the path is the bare
x segment the source reads an undefined package string and crashes with
a TypeError inside decompose; that propagating throw is the typeError
case. -/
def resolveDenoLand (net : String → Option String) (cache : VersionCache)
    (url : URLParts) : Except JsError ResolveOut :=
  let path := urlPathSegs url
  let pkgStrO := if path.get? 0 ≠ some "x" then path.get? 0 else path.get? 1
  match pkgStrO with
  | none => .error .typeError
  | some pkgStr =>
      let d := decomposePackageNameVersion pkgStr
      match cacheGet cache d.1 with
      | some (some v) => .ok ⟨some d.2, some v, cache, 0⟩
      | _ =>
          match net d.1 with
          | none => .ok ⟨some d.2, none, cacheSet cache d.1 none, 1⟩
          | some latestVersion =>
              .ok ⟨some d.2, some latestVersion,
                cacheSet cache d.1 (some latestVersion), 1⟩

structure ScanState where
  npm : VersionCache
  denoLand : VersionCache
  gitHub : VersionCache
deriving DecidableEq, Repr

structure UrlOut where
  current : Option String
  latest : Option String
  state : ScanState
  fetches : Nat
deriving DecidableEq, Repr

/-- createDenoURLResolver from src/checkDeps.ts: the npm: short-circuit,
then URL parsing (a throw is caught and yields null null), then dispatch
on the hostname with unrecognized hosts yielding null null without any
network activity. -/
def denoURLResolver (npmNet denoNet : String → Option String)
    (ghNet : String → String → Except GhError (Option String))
    (st : ScanState) (url_ : String) : Except JsError UrlOut :=
  if strStartsWith url_ "npm:" then
    let d := decomposePackageNameVersion (String.mk (url_.data.drop 4))
    let r := npmResolver npmNet st.npm d.1
    .ok ⟨some d.2, r.latest, ⟨r.cache, st.denoLand, st.gitHub⟩, r.fetches⟩
  else
    match parseURL url_ with
    | none => .ok ⟨none, none, st, 0⟩
    | some url =>
        if url.hostname = "deno.land" then
          match resolveDenoLand denoNet st.denoLand url with
          | .error e => .error e
          | .ok r => .ok ⟨r.current, r.latest,
              ⟨st.npm, r.cache, st.gitHub⟩, r.fetches⟩
        else if url.hostname = "raw.githubusercontent.com" then
          match resolveGitHub ghNet st.gitHub url with
          | .error e => .error e
          | .ok r => .ok ⟨r.current, r.latest,
              ⟨st.npm, st.denoLand, r.cache⟩, r.fetches⟩
        else .ok ⟨none, none, st, 0⟩

/-- C5 (counterexample): with a failing upstream, two successive npm
lookups of the same name each perform a network fetch: the null cached
by the first failure is present in the cache yet does not satisfy the
typeof-is-string hit test, so the second call fetches again. -/
theorem npmResolver_cached_null_refetches_cex :
    (npmResolver (fun _ => none) [] "left-pad").fetches = 1 ∧
      cacheGet (npmResolver (fun _ => none) [] "left-pad").cache "left-pad" =
        some none ∧
      (npmResolver (fun _ => none)
          (npmResolver (fun _ => none) [] "left-pad").cache
          "left-pad").fetches = 1 := by
  refine ⟨?_, ?_, ?_⟩ <;> decide

/-- C5 (amended): when the upstream lookup succeeds, two successive
calls with the same package name perform at most one network fetch in
total (the second call is answered from the cache); it is only a cached
null, after a failure, that does not short-circuit the next call. -/
theorem npmResolver_fetch_once (net : String → Option String)
    (cache : VersionCache) (pkg v : String) (hnet : net pkg = some v) :
    (npmResolver net cache pkg).fetches +
        (npmResolver net (npmResolver net cache pkg).cache pkg).fetches
      ≤ 1 := by
  rcases h : cacheGet cache pkg with _ | (_ | w)
  · simp [npmResolver, h, hnet, cacheGet_set]
  · simp [npmResolver, h, hnet, cacheGet_set]
  · simp [npmResolver, h]

theorem npmResolver_fetch_once_witness :
    (npmResolver (fun _ => some "1.3.0") [] "left-pad").fetches +
        (npmResolver (fun _ => some "1.3.0")
          (npmResolver (fun _ => some "1.3.0") [] "left-pad").cache
          "left-pad").fetches ≤ 1 :=
  npmResolver_fetch_once (fun _ => some "1.3.0") [] "left-pad" "1.3.0" rfl

/-- C7: dispatch of the URL resolver.  An npm:-prefixed string goes to
the registry resolver on the name obtained by stripping the prefix and
splitting on the last at-sign at positive index, with the embedded
version reported as current; a string the URL constructor rejects
yields null null with no fetch; a URL whose hostname is neither
deno.land nor raw.githubusercontent.com yields null null with no
fetch. -/
theorem denoURLResolver_dispatch (npmNet denoNet : String → Option String)
    (ghNet : String → String → Except GhError (Option String))
    (st : ScanState) (s : String) :
    (strStartsWith s "npm:" = true →
        denoURLResolver npmNet denoNet ghNet st s =
          .ok ⟨some (decomposePackageNameVersion (String.mk (s.data.drop 4))).2,
            (npmResolver npmNet st.npm
              (decomposePackageNameVersion (String.mk (s.data.drop 4))).1).latest,
            ⟨(npmResolver npmNet st.npm
              (decomposePackageNameVersion (String.mk (s.data.drop 4))).1).cache,
              st.denoLand, st.gitHub⟩,
            (npmResolver npmNet st.npm
              (decomposePackageNameVersion (String.mk (s.data.drop 4))).1).fetches⟩) ∧
      (strStartsWith s "npm:" = false → parseURL s = none →
        denoURLResolver npmNet denoNet ghNet st s = .ok ⟨none, none, st, 0⟩) ∧
      (∀ u : URLParts, strStartsWith s "npm:" = false → parseURL s = some u →
        u.hostname ≠ "deno.land" → u.hostname ≠ "raw.githubusercontent.com" →
        denoURLResolver npmNet denoNet ghNet st s =
          .ok ⟨none, none, st, 0⟩) := by
  refine ⟨?_, ?_, ?_⟩
  · intro hn
    simp only [denoURLResolver, hn, if_true]
  · intro hn hu
    simp only [denoURLResolver, hn, Bool.false_eq_true, if_false, hu]
  · intro u hn hu hd hg
    simp only [denoURLResolver, hn, Bool.false_eq_true, if_false, hu,
      if_neg hd, if_neg hg]

theorem denoURLResolver_dispatch_witness :
    denoURLResolver (fun _ => some "2.0.0") (fun _ => none)
        (fun _ _ => Except.error GhError.httpError)
        ⟨[], [], []⟩ "https://example.com/a" =
      Except.ok ⟨none, none, ⟨[], [], []⟩, 0⟩ :=
  (denoURLResolver_dispatch (fun _ => some "2.0.0") (fun _ => none)
      (fun _ _ => Except.error GhError.httpError) ⟨[], [], []⟩
      "https://example.com/a").2.2 ⟨"example.com", "/a"⟩
    (by decide) (by decide) (by decide) (by decide)

/-- C8 (counterexample): a failed latest-release query is not swallowed
by the GitHub resolver: on a cache miss with the API client rejecting
(as it does on any non-success HTTP status), the resolver returns the
propagated error, not an ok pair, and caches nothing. -/
theorem resolveGitHub_error_propagates_cex :
    resolveGitHub (fun _ _ => Except.error GhError.httpError) []
        ⟨"raw.githubusercontent.com", "/o/r/v1.0.0/mod.ts"⟩ =
      Except.error (JsError.ghRequestError GhError.httpError) := rfl

/-- C8 (amended): on a cache miss, an error from the latest-release API
call (raised for non-success HTTP statuses as well as transport faults)
propagates out of the GitHub resolver with the cache untouched; only a
successful response whose tag does not normalise to a semantic version
is cached as null and returned as the pair of the declared ref and
null. -/
theorem resolveGitHub_failure_behavior
    (net : String → String → Except GhError (Option String))
    (cache : VersionCache) (u : URLParts)
    (hmiss : cacheGet cache (ghKey u) = none ∨
      cacheGet cache (ghKey u) = some none) :
    (∀ e, net (ghOwner u) (ghRepo u) = .error e →
        resolveGitHub net cache u = .error (.ghRequestError e)) ∧
      ∀ t, net (ghOwner u) (ghRepo u) = .ok t →
        semverClean (t.getD "") = none →
        resolveGitHub net cache u =
          .ok ⟨ghRef u, none, cacheSet cache (ghKey u) none, 1⟩ := by
  constructor
  · intro e hnet
    rcases hmiss with hm | hm <;>
      simp only [resolveGitHub, hm, hnet]
  · intro t hnet hclean
    rcases hmiss with hm | hm <;>
      simp only [resolveGitHub, hm, hnet, hclean]

theorem resolveGitHub_failure_behavior_witness :
    resolveGitHub (fun _ _ => Except.ok (some "release-1")) []
        ⟨"raw.githubusercontent.com", "/o/r/v1.0.0/mod.ts"⟩ =
      Except.ok ⟨some "v1.0.0", none, [("o/r", none)], 1⟩ :=
  (resolveGitHub_failure_behavior (fun _ _ => Except.ok (some "release-1")) []
      ⟨"raw.githubusercontent.com", "/o/r/v1.0.0/mod.ts"⟩ (Or.inl rfl)).2
    (some "release-1") rfl (by decide)

/-! ## Scan pipelines (src/checkDeps.ts)

A JavaScript record iterated with Object.keys is modelled as the
association list of its entries in insertion order.  The pipelines
await the resolver sequentially; a resolver here maps a resource string
through an explicit state (its caches), abstracting the async calls of
the source. -/

structure VersionCheckSummaryItem where
  packageName : String
  currentVersion : Option String
  latestVersion : Option String
  checkResult : VersionCheckResult
deriving DecidableEq, Repr

abbrev StResolver (σ : Type) :=
  String → σ → (Option String × Option String) × σ

/-- checkDepsRecord from src/checkDeps.ts: one item per declared
dependency, the declared version as current (the resolver's current is
bound to an ignored placeholder in the source), the resolver's latest
as latest. -/
def checkDepsRecord {σ : Type} (resolver : StResolver σ) :
    List (String × String) → σ → List VersionCheckSummaryItem × σ
  | [], st => ([], st)
  | (pkgName, curVer) :: rest, st =>
      let r := resolver pkgName st
      let item : VersionCheckSummaryItem :=
        ⟨pkgName, some curVer, r.1.2, checkVersion pkgName (some curVer) r.1.2⟩
      let tail := checkDepsRecord resolver rest r.2
      (item :: tail.1, tail.2)

structure ImportMap where
  imports : List (String × String)

def checkDepsImportMapGo {σ : Type} (resolver : StResolver σ) :
    List (String × String) → σ → List VersionCheckSummaryItem × σ
  | [], st => ([], st)
  | (pkgName, url) :: rest, st =>
      let r := resolver url st
      let item : VersionCheckSummaryItem :=
        ⟨pkgName, r.1.1, r.1.2, checkVersion pkgName r.1.1 r.1.2⟩
      let tail := checkDepsImportMapGo resolver rest r.2
      (item :: tail.1, tail.2)

/-- checkDepsImportMap from src/checkDeps.ts: items are keyed by the
alias, both versions come from the resolver applied to the locator. -/
def checkDepsImportMap {σ : Type} (resolver : StResolver σ)
    (packages : ImportMap) (st : σ) : List VersionCheckSummaryItem × σ :=
  checkDepsImportMapGo resolver packages.imports st

/-! ### Free-text URL extraction

The source applies three global regexes over the text, one per quote
kind, and concatenates all matches of the first, then all of the
second, then all of the third.  Each regex is: the quote, http with an
optional s, colon-slash-slash, one or more characters of the safe
class, the same quote; the reported URL is the match without its
quotes.  The scanner below walks the text left to right, emitting each
leftmost non-overlapping match, as a global regex does; the fuel is the
text length, an upper bound since every step consumes at least one
character. -/

def safeChar (c : Char) : Bool :=
  c.isAlphanum || c = '_' || c = '/' || c = ':' || c = '%' || c = '#' ||
    c = '$' || c = '&' || c = '?' || c = '(' || c = ')' || c = '~' ||
    c = '.' || c = '=' || c = '+' || c = '-' || c = '@'

def dquoteChar : Char := Char.ofNat 34
def squoteChar : Char := Char.ofNat 39
def bquoteChar : Char := Char.ofNat 96

def stripPre : List Char → List Char → Option (List Char)
  | [], s => some s
  | _ :: _, [] => none
  | p :: ps, c :: cs => if p = c then stripPre ps cs else none

/-- Match the quoted-URL pattern at the head of the input: the quote,
http, optionally s, colon-slash-slash, a non-empty run of safe
characters, the closing quote.  Returns the URL without its quotes and
the rest of the input after the closing quote. -/
def tryMatch (q : Char) (l : List Char) : Option (List Char × List Char) :=
  match l with
  | [] => none
  | c :: rest =>
      if c = q then
        match stripPre "http".data rest with
        | none => none
        | some r1 =>
            let sc : List Char × List Char :=
              match r1 with
              | 's' :: t => (['s'], t)
              | other => ([], other)
            match stripPre "://".data sc.2 with
            | none => none
            | some r3 =>
                let run := r3.takeWhile safeChar
                match r3.drop run.length with
                | [] => none
                | c2 :: r5 =>
                    if run.isEmpty then none
                    else if c2 = q then
                      some ("http".data ++ sc.1 ++ ':' :: '/' :: '/' :: run,
                        r5)
                    else none
      else none

def scanAllFuel (q : Char) : Nat → List Char → List (List Char)
  | 0, _ => []
  | _, [] => []
  | fuel + 1, c :: rest =>
      match tryMatch q (c :: rest) with
      | some (u, r) => u :: scanAllFuel q fuel r
      | none => scanAllFuel q fuel rest

/-- All matches of the quoted-URL pattern for one quote kind, leftmost
first, non-overlapping, quotes stripped. -/
def scanAll (q : Char) (l : List Char) : List (List Char) :=
  scanAllFuel q l.length l

/-- The extracted URL strings of checkURLStringsEsInText, in report
order: all double-quoted matches, then single-quoted, then
back-quoted. -/
def extractURLs (text : String) : List String :=
  (scanAll dquoteChar text.data ++ scanAll squoteChar text.data ++
      scanAll bquoteChar text.data).map String.mk

def checkURLStringsGo {σ : Type} (resolver : StResolver σ) :
    List String → σ → List VersionCheckSummaryItem × σ
  | [], st => ([], st)
  | url :: rest, st =>
      let r := resolver url st
      let item : VersionCheckSummaryItem :=
        ⟨url, r.1.1, r.1.2, checkVersion url r.1.1 r.1.2⟩
      let tail := checkURLStringsGo resolver rest r.2
      (item :: tail.1, tail.2)

/-- checkURLStringsEsInText from src/checkDeps.ts: one item per
extracted URL, keyed by the URL itself, versions from the resolver. -/
def checkURLStringsEsInText {σ : Type} (text : String)
    (resolver : StResolver σ) (st : σ) : List VersionCheckSummaryItem × σ :=
  checkURLStringsGo resolver (extractURLs text) st

/-- C6: the manifest-record scan reports, for every record and every
resolver, the declared version of each package as its currentVersion
(the resolver's own current result is discarded), and the spec example
of left-pad pinned at 1.0.0 against latest 1.3.0 yields exactly one
outdated summary item. -/
theorem checkDepsRecord_current_from_manifest :
    (∀ (σ : Type) (resolver : StResolver σ)
        (packages : List (String × String)) (st : σ),
        (checkDepsRecord resolver packages st).1.map
            (fun i => (i.packageName, i.currentVersion)) =
          packages.map (fun p => (p.1, some p.2))) ∧
      (@checkDepsRecord Unit (fun _ st => ((none, some "1.3.0"), st))
          [("left-pad", "1.0.0")] ()).1 =
        [⟨"left-pad", some "1.0.0", some "1.3.0", .outdated⟩] := by
  constructor
  · intro σ resolver packages st
    induction packages generalizing st with
    | nil => rfl
    | cons p rest ih =>
        obtain ⟨pkgName, curVer⟩ := p
        simp only [checkDepsRecord, List.map_cons, ih]
  · decide

/-- C9 (counterexample): the free-text scan does not report matches in
first-to-last order across quote kinds: on a text where a single-quoted
URL appears before a double-quoted one, the double-quoted URL is
extracted first, because all matches of the double-quote pattern are
collected before any of the single-quote pattern. -/
theorem extractURLs_grouped_order_cex :
    extractURLs "'https://a.com/x' \"https://b.com/y\"" =
        ["https://b.com/y", "https://a.com/x"] ∧
      extractURLs "'https://a.com/x' \"https://b.com/y\"" ≠
        ["https://a.com/x", "https://b.com/y"] := by
  exact ⟨by decide, by decide⟩

/-- C9 (amended): each pipeline returns exactly one summary item per
extracted reference, without deduplication: the record and import-map
scans in mapping insertion order, the free-text scan in first-to-last
order within each quote kind but grouped with all double-quoted matches
first, then single-quoted, then back-quoted; extraction finds each
quoted http(s) URL over the safe character class with the quotes
stripped, so the spec example yields exactly its two URLs, and a URL
appearing twice yields two entries. -/
theorem scan_pipelines_order :
    (∀ (σ : Type) (resolver : StResolver σ)
        (packages : List (String × String)) (st : σ),
        (checkDepsRecord resolver packages st).1.map
            (fun i => i.packageName) =
          packages.map (fun p => p.1)) ∧
      (∀ (σ : Type) (resolver : StResolver σ) (m : ImportMap) (st : σ),
        (checkDepsImportMap resolver m st).1.map (fun i => i.packageName) =
          m.imports.map (fun p => p.1)) ∧
      (∀ (σ : Type) (resolver : StResolver σ) (text : String) (st : σ),
        (checkURLStringsEsInText text resolver st).1.map
            (fun i => i.packageName) =
          extractURLs text) ∧
      extractURLs
          "import \"https://example.com/a/b\"; import 'https://example.com/c';" =
        ["https://example.com/a/b", "https://example.com/c"] ∧
      extractURLs "\"https://a.com/x\" \"https://a.com/x\"" =
        ["https://a.com/x", "https://a.com/x"] := by
  refine ⟨?_, ?_, ?_, by decide, by decide⟩
  · intro σ resolver packages st
    induction packages generalizing st with
    | nil => rfl
    | cons p rest ih =>
        obtain ⟨pkgName, curVer⟩ := p
        simp only [checkDepsRecord, List.map_cons, ih]
  · intro σ resolver m st
    obtain ⟨imports⟩ := m
    simp only [checkDepsImportMap]
    induction imports generalizing st with
    | nil => rfl
    | cons p rest ih =>
        obtain ⟨pkgName, url⟩ := p
        simp only [checkDepsImportMapGo, List.map_cons, ih]
  · intro σ resolver text st
    simp only [checkURLStringsEsInText]
    generalize extractURLs text = urls
    induction urls generalizing st with
    | nil => rfl
    | cons url rest ih =>
        simp only [checkURLStringsGo, List.map_cons, ih]
